import Mathlib

/-!
Verification of the particle-roundness calculator (V11.py).

Shallow embedding of the pipeline with algorithmic content: the
binarization stage, the contour-measurement and particle-extraction loop,
the minimum-area particle filter with its dual table/overlay paths, the
CSV export payload, and the interactive crop-region editor.

Machine floats of the source are modelled as exact rationals; a traced
contour is modelled by the two measurements the pipeline reads from it.
-/

namespace Roundness

/-- One step of OpenCV threshold with THRESH_BINARY_INV on a single
grayscale pixel: the result is 0 when the source value exceeds the
threshold, and maxval = 255 otherwise. -/
def threshBinaryInv (threshold pixel : ℕ) : ℕ :=
  if pixel > threshold then 0 else 255

/-- Embedding of CircularityCalculator.update_binary_image: apply the
inverse binary threshold to every pixel of the grayscale image. -/
def update_binary_image (gray : List (List ℕ)) (threshold : ℕ) : List (List ℕ) :=
  gray.map (fun row => row.map (threshBinaryInv threshold))

/-- Pixel lookup in a row-major image, as an Option. -/
def pixelAt (img : List (List ℕ)) (i j : ℕ) : Option ℕ :=
  (img.get? i).bind (fun row => row.get? j)

/-- The IEEE-754 binary64 value of np.pi, as an exact rational
(884279719003555 times 2 to the minus 48). -/
def np_pi : ℚ := 884279719003555 / 281474976710656

/-- Round a rational to the nearest integer, ties to even: the rounding rule
of Python's built-in round. -/
def roundHalfEven (q : ℚ) : ℤ :=
  let f := ⌊q⌋
  if q - f < 1/2 then f
  else if (1 : ℚ)/2 < q - f then f + 1
  else if f % 2 = 0 then f else f + 1

/-- Python round(x, 4): round to four decimal places, ties to even. -/
def round4 (q : ℚ) : ℚ := (roundHalfEven (q * 10000) : ℚ) / 10000

/-- A traced contour as the pipeline consumes it: the measurements
cv2.contourArea and cv2.arcLength(closed=True) of one external boundary. -/
structure Contour where
  area : ℚ
  perimeter : ℚ
  deriving DecidableEq, Repr

/-- One record of particle_data as built in goto_page2. -/
structure Particle where
  index : ℕ
  perimeter : ℚ
  area : ℚ
  circularity : ℚ
  deriving DecidableEq, Repr

/-- The per-contour body of the extraction loop in goto_page2:
circularity = (4 * np.pi * area) / (perimeter ** 2), and all three measures
are stored rounded to four decimals. -/
def mkParticle (idx : ℕ) (c : Contour) : Particle :=
  { index := idx
    perimeter := round4 c.perimeter
    area := round4 c.area
    circularity := round4 (4 * np_pi * c.area / c.perimeter ^ 2) }

/-- The extraction loop of goto_page2, with i0 the index handed to the next
contour (the source enumerates contours from 1): a contour whose perimeter
or area is not strictly positive is skipped, but still consumes its index. -/
def extractFrom (i0 : ℕ) : List Contour → List Particle
  | [] => []
  | c :: cs =>
      if c.perimeter ≤ 0 ∨ c.area ≤ 0 then extractFrom (i0 + 1) cs
      else mkParticle i0 c :: extractFrom (i0 + 1) cs

/-- Particle extraction of goto_page2: enumerate(contours, 1) with the
positivity guard. -/
def extractParticles (contours : List Contour) : List Particle :=
  extractFrom 1 contours

/-- The table path of filter_particles: keep a stored particle record iff
its stored (rounded) area is at least min_area. -/
def filterData (data : List Particle) (min_area : ℚ) : List Particle :=
  data.filter (fun p => decide (min_area ≤ p.area))

/-- The overlay path of filter_particles: the contours redrawn onto the
fresh copy of the original are those whose raw cv2.contourArea is at least
min_area (no positivity guard, no rounding); contours are identified by
their 1-based discovery index, i0 being the index of the next contour. -/
def drawnIdxFrom (i0 : ℕ) (m : ℚ) : List Contour → List ℕ
  | [] => []
  | c :: cs =>
      if m ≤ c.area then i0 :: drawnIdxFrom (i0 + 1) m cs
      else drawnIdxFrom (i0 + 1) m cs

/-- Discovery indices of the contours the overlay path redraws. -/
def drawnIdx (contours : List Contour) (min_area : ℚ) : List ℕ :=
  drawnIdxFrom 1 min_area contours

/-- Discovery indices of the particles the table path retains. -/
def tabledIdx (contours : List Contour) (min_area : ℚ) : List ℕ :=
  (filterData (extractParticles contours) min_area).map Particle.index

/-- The session fields that filter_particles may touch: the cached particle
records, the contour list of the current binary image, the table contents,
the overlay (as drawn contour indices), the export payload and the page. -/
structure Session where
  particle_data : List Particle
  contours : List Contour
  tableRows : List Particle
  overlay : List ℕ
  filtered_particle_data : Option (List Particle)
  pageIndex : ℕ
  deriving DecidableEq, Repr

/-- Embedding of CircularityCalculator.filter_particles. The argument
parsed is the outcome of float(text) on the minimum-area input (none when
parsing raises ValueError). The returned flag is true exactly when the
warning dialog is shown and the handler returns early. -/
def filter_particles (s : Session) (parsed : Option ℚ) : Session × Bool :=
  match parsed with
  | none => (s, true)
  | some min_area =>
      if min_area < 0 then (s, true)
      else
        let filtered := filterData s.particle_data min_area
        ({ s with
            tableRows := filtered
            overlay := drawnIdx s.contours min_area
            filtered_particle_data := some filtered
            pageIndex := 2 }, false)

/-- The payload save_processed_csv writes: the file encoding, the header
row, and one row of the four numeric fields per retained particle. -/
structure CsvFile where
  encoding : String
  header : List String
  rows : List (ℕ × ℚ × ℚ × ℚ)
  deriving DecidableEq, Repr

/-- Embedding of CircularityCalculator.save_processed_csv on the retained
particle list. -/
def save_processed_csv (filtered : List Particle) : CsvFile :=
  { encoding := "utf-8-sig"
    header := ["序号", "周长", "面积", "圆形度"]
    rows := filtered.map (fun p => (p.index, p.perimeter, p.area, p.circularity)) }

/-- The four draggable edges of the crop rectangle. -/
inductive Edge
  | left
  | right
  | top
  | bottom
  deriving DecidableEq, Repr

/-- The rectangle state of ImageCropDialog, in scaled-preview coordinates. -/
structure CropState where
  crop_left : ℤ
  crop_top : ℤ
  crop_right : ℤ
  crop_bottom : ℤ
  deriving DecidableEq, Repr

/-- The dialog's drag_threshold constant (10 units). -/
def drag_threshold : ℤ := 10

/-- The dialog's min_crop_size constant (20 units). -/
def min_crop_size : ℤ := 20

/-- Embedding of ImageCropDialog._judge_drag_type: the four eligibility
tests of the source, then the fixed if/elif chain left, right, top,
bottom. -/
def judge_drag_type (st : CropState) (img_x img_y : ℤ) : Option Edge :=
  if |img_x - st.crop_left| ≤ drag_threshold ∧ st.crop_top ≤ img_y ∧ img_y ≤ st.crop_bottom then
    some .left
  else if |img_x - st.crop_right| ≤ drag_threshold ∧ st.crop_top ≤ img_y ∧ img_y ≤ st.crop_bottom then
    some .right
  else if |img_y - st.crop_top| ≤ drag_threshold ∧ st.crop_left ≤ img_x ∧ img_x ≤ st.crop_right then
    some .top
  else if |img_y - st.crop_bottom| ≤ drag_threshold ∧ st.crop_left ≤ img_x ∧ img_x ≤ st.crop_right then
    some .bottom
  else
    none

/-- Eligibility of one edge for dragging, exactly the corresponding boolean
of _judge_drag_type. -/
def edgeOk (st : CropState) (e : Edge) (img_x img_y : ℤ) : Prop :=
  match e with
  | .left => |img_x - st.crop_left| ≤ drag_threshold ∧ st.crop_top ≤ img_y ∧ img_y ≤ st.crop_bottom
  | .right => |img_x - st.crop_right| ≤ drag_threshold ∧ st.crop_top ≤ img_y ∧ img_y ≤ st.crop_bottom
  | .top => |img_y - st.crop_top| ≤ drag_threshold ∧ st.crop_left ≤ img_x ∧ img_x ≤ st.crop_right
  | .bottom => |img_y - st.crop_bottom| ≤ drag_threshold ∧ st.crop_left ≤ img_x ∧ img_x ≤ st.crop_right

instance (st : CropState) (e : Edge) (img_x img_y : ℤ) : Decidable (edgeOk st e img_x img_y) := by
  unfold edgeOk
  cases e <;> infer_instance

/-- The fixed priority in which _judge_drag_type tests the edges. -/
def edgePriority (e : Edge) : ℕ :=
  match e with
  | .left => 0
  | .right => 1
  | .top => 2
  | .bottom => 3

/-- Embedding of ImageCropDialog._update_crop_coords: move only the dragged
edge, clamped against 0 or the preview extent on one side and against the
opposite edge offset by min_crop_size on the other. -/
def update_crop_coords (st : CropState) (drag : Edge) (img_w img_h img_x img_y : ℤ) :
    CropState :=
  match drag with
  | .left => { st with crop_left := max 0 (min img_x (st.crop_right - min_crop_size)) }
  | .right => { st with crop_right := min img_w (max img_x (st.crop_left + min_crop_size)) }
  | .top => { st with crop_top := max 0 (min img_y (st.crop_bottom - min_crop_size)) }
  | .bottom => { st with crop_bottom := min img_h (max img_y (st.crop_top + min_crop_size)) }

/-- Well-formedness of the crop rectangle inside a preview of extent
img_w by img_h. -/
def CropInv (img_w img_h : ℤ) (st : CropState) : Prop :=
  0 ≤ st.crop_left ∧ st.crop_left + min_crop_size ≤ st.crop_right ∧ st.crop_right ≤ img_w ∧
    0 ≤ st.crop_top ∧ st.crop_top + min_crop_size ≤ st.crop_bottom ∧ st.crop_bottom ≤ img_h

instance (img_w img_h : ℤ) (st : CropState) : Decidable (CropInv img_w img_h st) := by
  unfold CropInv
  infer_instance

/-- One pointer-move event while dragging: the edge grabbed at press time
and the pointer coordinates handed to _update_crop_coords. -/
structure DragEvent where
  drag : Edge
  img_x : ℤ
  img_y : ℤ
  deriving DecidableEq, Repr

/-- A whole drag session: fold _update_crop_coords over a sequence of
pointer-move events. -/
def applyDrags (img_w img_h : ℤ) (st : CropState) (evs : List DragEvent) : CropState :=
  evs.foldl (fun s e => update_crop_coords s e.drag img_w img_h e.img_x e.img_y) st

/-- Python int() on a rational: truncation toward zero. -/
def pyInt (q : ℚ) : ℤ := if q < 0 then ⌈q⌉ else ⌊q⌋

/-- The rectangle on_confirm_crop computes in original-image coordinates:
each preview coordinate times scale_w = orig_w / prev_w (respectively
scale_h = orig_h / prev_h), truncated to an integer. -/
def mappedRect (st : CropState) (orig_w orig_h prev_w prev_h : ℤ) : ℤ × ℤ × ℤ × ℤ :=
  let scale_w : ℚ := (orig_w : ℚ) / (prev_w : ℚ)
  let scale_h : ℚ := (orig_h : ℚ) / (prev_h : ℚ)
  (pyInt ((st.crop_left : ℚ) * scale_w), pyInt ((st.crop_top : ℚ) * scale_h),
    pyInt ((st.crop_right : ℚ) * scale_w), pyInt ((st.crop_bottom : ℚ) * scale_h))

/-- The bounds condition on_confirm_crop checks before cropping. -/
def rectInBounds (orig_w orig_h : ℤ) (r : ℤ × ℤ × ℤ × ℤ) : Prop :=
  0 ≤ r.1 ∧ 0 ≤ r.2.1 ∧ r.2.2.1 ≤ orig_w ∧ r.2.2.2 ≤ orig_h

instance (orig_w orig_h : ℤ) (r : ℤ × ℤ × ℤ × ℤ) : Decidable (rectInBounds orig_w orig_h r) := by
  unfold rectInBounds
  infer_instance

/-- Embedding of ImageCropDialog.on_confirm_crop: map the preview rectangle
to original coordinates; fail (warning shown, no crop applied) when the
mapped rectangle leaves the original image, otherwise crop exactly the
mapped rectangle. -/
def on_confirm_crop (st : CropState) (orig_w orig_h prev_w prev_h : ℤ) :
    Option (ℤ × ℤ × ℤ × ℤ) :=
  let r := mappedRect st orig_w orig_h prev_w prev_h
  if r.1 < 0 ∨ r.2.1 < 0 ∨ orig_w < r.2.2.1 ∨ orig_h < r.2.2.2 then none
  else some r

/-! ### Helper lemmas -/

/-- Membership characterization of the extraction loop: a particle of
extractFrom i0 cs is exactly the record built from a positively measured
contour at its discovery position. -/
lemma mem_extractFrom (i0 : ℕ) (cs : List Contour) (p : Particle) :
    p ∈ extractFrom i0 cs ↔
      ∃ j c, cs.get? j = some c ∧ 0 < c.perimeter ∧ 0 < c.area ∧
        p = mkParticle (i0 + j) c := by
  induction cs generalizing i0 with
  | nil => simp [extractFrom]
  | cons c cs ih =>
      by_cases hg : c.perimeter ≤ 0 ∨ c.area ≤ 0
      · rw [extractFrom, if_pos hg, ih]
        constructor
        · rintro ⟨j, d, hd, h1, h2, rfl⟩
          refine ⟨j + 1, d, by simpa using hd, h1, h2, ?_⟩
          rw [show i0 + (j + 1) = i0 + 1 + j by omega]
        · rintro ⟨j, d, hd, h1, h2, rfl⟩
          cases j with
          | zero =>
              rw [List.get?] at hd
              obtain rfl : c = d := by simpa using hd
              rcases hg with hg | hg
              · exact absurd h1 (by linarith)
              · exact absurd h2 (by linarith)
          | succ j =>
              refine ⟨j, d, by simpa using hd, h1, h2, ?_⟩
              rw [show i0 + 1 + j = i0 + (j + 1) by omega]
      · rw [extractFrom, if_neg hg]
        push_neg at hg
        simp only [List.mem_cons, ih]
        constructor
        · rintro (rfl | ⟨j, d, hd, h1, h2, rfl⟩)
          · exact ⟨0, c, by simp, hg.1, hg.2, by simp⟩
          · refine ⟨j + 1, d, by simpa using hd, h1, h2, ?_⟩
            rw [show i0 + (j + 1) = i0 + 1 + j by omega]
        · rintro ⟨j, d, hd, h1, h2, rfl⟩
          cases j with
          | zero =>
              rw [List.get?] at hd
              obtain rfl : c = d := by simpa using hd
              exact Or.inl (by simp)
          | succ j =>
              refine Or.inr ⟨j, d, by simpa using hd, h1, h2, ?_⟩
              rw [show i0 + 1 + j = i0 + (j + 1) by omega]

/-- Every index in the tail of the extraction loop is at least the running
counter. -/
lemma extractFrom_index_le (i0 : ℕ) (cs : List Contour) :
    ∀ p ∈ extractFrom i0 cs, i0 ≤ p.index := by
  intro p hp
  obtain ⟨j, c, _, _, _, rfl⟩ := (mem_extractFrom i0 cs p).mp hp
  simp [mkParticle]

/-- The extraction loop produces particles with strictly increasing
indices. -/
lemma extractFrom_chain (i0 : ℕ) (cs : List Contour) :
    (extractFrom i0 cs).Chain' (fun p q => p.index < q.index) := by
  induction cs generalizing i0 with
  | nil => simp [extractFrom]
  | cons c cs ih =>
      rw [extractFrom]
      split_ifs with hg
      · exact ih (i0 + 1)
      · rw [List.chain'_cons']
        refine ⟨?_, ih (i0 + 1)⟩
        intro q hq
        have hmem : q ∈ extractFrom (i0 + 1) cs := List.mem_of_mem_head? hq
        have := extractFrom_index_le (i0 + 1) cs q hmem
        simp only [mkParticle]
        omega

/-- When every contour measures positively and rounding its area does not
cross the min_area boundary, the overlay path redraws exactly the contours
whose records survive the table filter. -/
lemma drawnIdxFrom_eq (i0 : ℕ) (m : ℚ) (cs : List Contour)
    (h : ∀ c ∈ cs, 0 < c.perimeter ∧ 0 < c.area ∧ (m ≤ round4 c.area ↔ m ≤ c.area)) :
    drawnIdxFrom i0 m cs =
      ((extractFrom i0 cs).filter (fun p => decide (m ≤ p.area))).map Particle.index := by
  induction cs generalizing i0 with
  | nil => rfl
  | cons c cs ih =>
      obtain ⟨h1, h2, hiff⟩ := h c (by simp)
      have hrest : ∀ d ∈ cs, 0 < d.perimeter ∧ 0 < d.area ∧
          (m ≤ round4 d.area ↔ m ≤ d.area) :=
        fun d hd => h d (List.mem_cons_of_mem c hd)
      have hguard : ¬(c.perimeter ≤ 0 ∨ c.area ≤ 0) := by push_neg; exact ⟨h1, h2⟩
      rw [drawnIdxFrom, extractFrom, if_neg hguard, List.filter_cons]
      by_cases hm : m ≤ c.area
      · have hcond : decide (m ≤ (mkParticle i0 c).area) = true := by
          simp only [mkParticle]
          simpa using hiff.mpr hm
        rw [if_pos hm, if_pos hcond, List.map_cons, ih (i0 + 1) hrest]
        rfl
      · have hcond : ¬(decide (m ≤ (mkParticle i0 c).area) = true) := by
          simp only [mkParticle]
          simpa using fun hr => hm (hiff.mp hr)
        rw [if_neg hm, if_neg hcond, ih (i0 + 1) hrest]

/-! ### Claim theorems -/

/-- C1 (counterexample): the claim "foreground iff grayscale value strictly
below the threshold, equality is background, and threshold 0 gives an
all-background mask" is false on the code: THRESH_BINARY_INV makes a pixel
whose value equals the threshold foreground (value 100 at threshold 100 is
mapped to 255 even though 100 < 100 fails), and at threshold 0 a pixel of
value 0 is foreground. -/
theorem c1_counterexample :
    pixelAt (update_binary_image [[100]] 100) 0 0 = some 255 ∧ ¬ (100 < 100) ∧
      pixelAt (update_binary_image [[0]] 0) 0 0 = some 255 := by
  refine ⟨?_, by omega, ?_⟩ <;> rfl

/-- C1 (amended): for every grayscale image and threshold, a mask pixel is
foreground (255) iff its grayscale value is at most the threshold (equality
is foreground); binarizing with threshold 255 yields an all-foreground mask
for 8-bit values, and with threshold 0 a pixel is foreground exactly when
its value is 0. -/
theorem c1_binarization (gray : List (List ℕ)) (t i j v : ℕ)
    (hv : pixelAt gray i j = some v) (hbit : v ≤ 255) :
    pixelAt (update_binary_image gray t) i j = some (if v ≤ t then 255 else 0) ∧
      (t = 255 → pixelAt (update_binary_image gray t) i j = some 255) ∧
      (t = 0 → (pixelAt (update_binary_image gray t) i j = some 255 ↔ v = 0)) := by
  obtain ⟨row, hrow, hvj⟩ := Option.bind_eq_some.mp hv
  have hmain : pixelAt (update_binary_image gray t) i j = some (threshBinaryInv t v) := by
    unfold pixelAt update_binary_image at *
    rw [List.get?_map, hrow]
    simp only [Option.map_some', Option.some_bind, List.get?_map, hvj]
  have hval : threshBinaryInv t v = if v ≤ t then 255 else 0 := by
    unfold threshBinaryInv
    by_cases h : v ≤ t
    · rw [if_neg (by omega), if_pos h]
    · rw [if_pos (by omega), if_neg h]
  refine ⟨hmain.trans (by rw [hval]), ?_, ?_⟩
  · intro ht
    subst ht
    rw [hmain, hval, if_pos hbit]
  · intro ht
    subst ht
    rw [hmain, hval]
    constructor
    · intro h
      by_contra hne
      rw [if_neg (by omega)] at h
      simp at h
    · intro h
      subst h
      rw [if_pos (le_refl 0)]

/-- C1 (witness for the amended theorem). -/
theorem c1_binarization_witness :
    pixelAt (update_binary_image [[5, 200]] 160) 0 0 = some (if 5 ≤ 160 then 255 else 0) ∧
      ((160 : ℕ) = 255 → pixelAt (update_binary_image [[5, 200]] 160) 0 0 = some 255) ∧
      ((160 : ℕ) = 0 →
        (pixelAt (update_binary_image [[5, 200]] 160) 0 0 = some 255 ↔ (5 : ℕ) = 0)) :=
  c1_binarization [[5, 200]] 160 0 0 5 rfl (by omega)

/-- C3: a particle record exists for position i exactly when the contour
discovered there has strictly positive perimeter and strictly positive
area, and every record of the extraction comes from such a contour (so a
degenerate contour appears in no record and is never stored as a
zero-valued particle; the embedded extraction has no error channel). -/
theorem c3_positivity (cs : List Contour) (i : ℕ) (h : i < cs.length) :
    ((i + 1) ∈ (extractParticles cs).map Particle.index ↔
      0 < (cs.get ⟨i, h⟩).perimeter ∧ 0 < (cs.get ⟨i, h⟩).area) ∧
      (∀ p ∈ extractParticles cs, ∃ j c, cs.get? j = some c ∧
        0 < c.perimeter ∧ 0 < c.area ∧ p = mkParticle (j + 1) c) := by
  constructor
  · rw [List.mem_map]
    constructor
    · rintro ⟨p, hp, hidx⟩
      obtain ⟨j, c, hc, h1, h2, rfl⟩ := (mem_extractFrom 1 cs p).mp hp
      have hj : j = i := by
        simp only [mkParticle] at hidx
        omega
      rw [hj, List.get?_eq_get h] at hc
      obtain rfl : c = cs.get ⟨i, h⟩ := by simpa using hc.symm
      exact ⟨h1, h2⟩
    · rintro ⟨h1, h2⟩
      refine ⟨mkParticle (1 + i) (cs.get ⟨i, h⟩), ?_, by simp [mkParticle]; omega⟩
      exact (mem_extractFrom 1 cs _).mpr ⟨i, cs.get ⟨i, h⟩, List.get?_eq_get h, h1, h2, rfl⟩
  · intro p hp
    obtain ⟨j, c, hc, h1, h2, rfl⟩ := (mem_extractFrom 1 cs p).mp hp
    exact ⟨j, c, hc, h1, h2, by rw [show 1 + j = j + 1 by omega]⟩

/-- C3 (witness): on a mask with one degenerate contour (zero area) followed
by one proper contour, index 1 yields no record while index 2 does. -/
theorem c3_positivity_witness :
    (((0 : ℕ) + 1) ∈ (extractParticles [⟨0, 5⟩, ⟨4, 8⟩]).map Particle.index ↔
      0 < (([⟨0, 5⟩, ⟨4, 8⟩] : List Contour).get ⟨0, by decide⟩).perimeter ∧
        0 < (([⟨0, 5⟩, ⟨4, 8⟩] : List Contour).get ⟨0, by decide⟩).area) ∧
      (∀ p ∈ extractParticles [⟨0, 5⟩, ⟨4, 8⟩],
        ∃ j c, ([⟨0, 5⟩, ⟨4, 8⟩] : List Contour).get? j = some c ∧
          0 < c.perimeter ∧ 0 < c.area ∧ p = mkParticle (j + 1) c) :=
  c3_positivity [⟨0, 5⟩, ⟨4, 8⟩] 0 (by decide)

/-- C10: the particle indices produced by extraction are strictly
increasing in list order, and they need not be contiguous from 1: on a mask
whose first discovered contour is degenerate, the first retained particle
carries index 2. -/
theorem c10_index_gaps :
    (∀ cs : List Contour,
      ((extractParticles cs).map Particle.index).Chain' (fun a b => a < b)) ∧
      (∃ cs : List Contour, ∃ p ps, extractParticles cs = p :: ps ∧ 1 < p.index) := by
  constructor
  · intro cs
    rw [List.chain'_map]
    exact extractFrom_chain 1 cs
  · refine ⟨[⟨0, 5⟩, ⟨4, 8⟩], mkParticle 2 ⟨4, 8⟩, [], ?_, ?_⟩
    · rfl
    · simp [mkParticle]

/-- C4: the filter keeps a particle record iff its area is at least
min_area (inclusive boundary); with min_area = 0 a list of non-negative
areas is returned unchanged, and with min_area above every area the result
is empty. -/
theorem c4_filter_boundary (data : List Particle) (min_area : ℚ) (hm : 0 ≤ min_area) :
    (∀ p, p ∈ filterData data min_area ↔ p ∈ data ∧ min_area ≤ p.area) ∧
      ((∀ p ∈ data, 0 ≤ p.area) → filterData data 0 = data) ∧
      ((∀ p ∈ data, p.area < min_area) → filterData data min_area = []) := by
  refine ⟨?_, ?_, ?_⟩
  · intro p
    rw [filterData, List.mem_filter]
    simp
  · intro hpos
    rw [filterData, List.filter_eq_self]
    intro p hp
    simpa using hpos p hp
  · intro hlt
    rw [filterData, List.filter_eq_nil]
    intro p hp
    simpa using not_le.mpr (hlt p hp)

/-- C4 (witness): with min_area 3, the particle of area 5 is kept and the
particle of area 2 is dropped. -/
theorem c4_filter_boundary_witness :
    (∀ p, p ∈ filterData [⟨1, 10, 5, 1⟩, ⟨2, 8, 2, 1⟩] 3 ↔
      p ∈ ([⟨1, 10, 5, 1⟩, ⟨2, 8, 2, 1⟩] : List Particle) ∧ 3 ≤ p.area) ∧
      ((∀ p ∈ ([⟨1, 10, 5, 1⟩, ⟨2, 8, 2, 1⟩] : List Particle), 0 ≤ p.area) →
        filterData [⟨1, 10, 5, 1⟩, ⟨2, 8, 2, 1⟩] 0 = [⟨1, 10, 5, 1⟩, ⟨2, 8, 2, 1⟩]) ∧
      ((∀ p ∈ ([⟨1, 10, 5, 1⟩, ⟨2, 8, 2, 1⟩] : List Particle), p.area < 3) →
        filterData [⟨1, 10, 5, 1⟩, ⟨2, 8, 2, 1⟩] 3 = []) :=
  c4_filter_boundary [⟨1, 10, 5, 1⟩, ⟨2, 8, 2, 1⟩] 3 (by norm_num)

/-- C5: when the minimum-area text does not parse as a real or parses as a
negative real, filter_particles shows the warning and returns early: the
session (particle list, contours, table, overlay, export payload, page) is
returned unchanged. -/
theorem c5_invalid_input (s : Session) (parsed : Option ℚ)
    (h : parsed = none ∨ ∃ v, parsed = some v ∧ v < 0) :
    (filter_particles s parsed).1 = s ∧ (filter_particles s parsed).2 = true := by
  rcases h with rfl | ⟨v, rfl, hv⟩
  · exact ⟨rfl, rfl⟩
  · rw [filter_particles]
    rw [if_pos hv]
    exact ⟨rfl, rfl⟩

/-- C5 (witness): a negative parsed value leaves a concrete session
untouched and reports the error. -/
theorem c5_invalid_input_witness :
    (filter_particles ⟨[⟨1, 10, 5, 1⟩], [⟨5, 10⟩], [⟨1, 10, 5, 1⟩], [1], none, 1⟩
        (some (-2))).1 = ⟨[⟨1, 10, 5, 1⟩], [⟨5, 10⟩], [⟨1, 10, 5, 1⟩], [1], none, 1⟩ ∧
      (filter_particles ⟨[⟨1, 10, 5, 1⟩], [⟨5, 10⟩], [⟨1, 10, 5, 1⟩], [1], none, 1⟩
        (some (-2))).2 = true :=
  c5_invalid_input _ _ (Or.inr ⟨-2, rfl, by norm_num⟩)

/-- C9 (counterexample): the two filter paths disagree. On a mask whose
only contour is degenerate (zero area, positive perimeter) and with
min_area 0, the overlay path redraws contour 1 (0 ≤ 0, no positivity
guard) while the table path retains nothing, because extraction never
created a particle for it. -/
theorem c9_counterexample : drawnIdx [⟨0, 5⟩] 0 ≠ tabledIdx [⟨0, 5⟩] 0 := by
  decide

/-- C9 (amended): the overlay and table paths agree whenever every contour
has strictly positive area and perimeter and the 4-decimal rounding of its
area does not change the comparison with min_area; in general they can
disagree (degenerate contours are drawn but never tabled, and the table
compares the rounded area while the overlay compares the raw one). -/
theorem c9_paths_agree (cs : List Contour) (min_area : ℚ)
    (h : ∀ c ∈ cs, 0 < c.perimeter ∧ 0 < c.area ∧
      (min_area ≤ round4 c.area ↔ min_area ≤ c.area)) :
    drawnIdx cs min_area = tabledIdx cs min_area := by
  rw [drawnIdx, tabledIdx, extractParticles, filterData]
  exact drawnIdxFrom_eq 1 min_area cs h

/-- C9 (witness): a single proper contour with min_area 0 is both drawn and
tabled. -/
theorem c9_paths_agree_witness : drawnIdx [⟨4, 8⟩] 0 = tabledIdx [⟨4, 8⟩] 0 :=
  c9_paths_agree [⟨4, 8⟩] 0 (by
    intro c hc
    rw [List.mem_singleton] at hc
    subst hc
    refine ⟨by norm_num, by norm_num, ?_⟩
    norm_num [round4, roundHalfEven])

/-- C2 (counterexample): the CSV header the code writes is the Chinese
labels, not the English ones the claim fixes as a compatibility
contract. -/
theorem c2_counterexample :
    (save_processed_csv [⟨1, 10, 5, 1⟩]).header ≠
      ["index", "perimeter", "area", "circularity"] := by
  decide

/-- C2 (amended): for every non-empty retained particle list produced by
the pipeline, the CSV payload uses the utf-8-sig encoding (UTF-8 with
byte-order marker), its header row is the Chinese labels 序号, 周长, 面积,
圆形度 (index, perimeter, area, circularity) in exactly that column order,
and each data row carries the particle's index together with its
perimeter, area and circularity as stored — rounded to 4 decimal places at
extraction time. -/
theorem c2_csv_payload (cs : List Contour) (min_area : ℚ)
    (hne : filterData (extractParticles cs) min_area ≠ []) :
    (save_processed_csv (filterData (extractParticles cs) min_area)).encoding =
        "utf-8-sig" ∧
      (save_processed_csv (filterData (extractParticles cs) min_area)).header =
        ["序号", "周长", "面积", "圆形度"] ∧
      (save_processed_csv (filterData (extractParticles cs) min_area)).rows =
        (filterData (extractParticles cs) min_area).map
          (fun p => (p.index, p.perimeter, p.area, p.circularity)) ∧
      ∀ r ∈ (save_processed_csv (filterData (extractParticles cs) min_area)).rows,
        ∃ c ∈ cs, 0 < c.perimeter ∧ 0 < c.area ∧
          r.2.1 = round4 c.perimeter ∧ r.2.2.1 = round4 c.area ∧
          r.2.2.2 = round4 (4 * np_pi * c.area / c.perimeter ^ 2) := by
  refine ⟨rfl, rfl, rfl, ?_⟩
  intro r hr
  rw [save_processed_csv] at hr
  simp only [List.mem_map] at hr
  obtain ⟨p, hp, rfl⟩ := hr
  have hp' : p ∈ extractParticles cs := List.mem_of_mem_filter hp
  obtain ⟨j, c, hc, h1, h2, rfl⟩ := (mem_extractFrom 1 cs p).mp hp'
  exact ⟨c, List.get?_mem hc, h1, h2, rfl, rfl, rfl⟩

/-- C2 (witness for the amended theorem): one proper contour, min_area 0. -/
theorem c2_csv_payload_witness :
    (save_processed_csv (filterData (extractParticles [⟨4, 8⟩]) 0)).encoding =
        "utf-8-sig" ∧
      (save_processed_csv (filterData (extractParticles [⟨4, 8⟩]) 0)).header =
        ["序号", "周长", "面积", "圆形度"] ∧
      (save_processed_csv (filterData (extractParticles [⟨4, 8⟩]) 0)).rows =
        (filterData (extractParticles [⟨4, 8⟩]) 0).map
          (fun p => (p.index, p.perimeter, p.area, p.circularity)) ∧
      ∀ r ∈ (save_processed_csv (filterData (extractParticles [⟨4, 8⟩]) 0)).rows,
        ∃ c ∈ ([⟨4, 8⟩] : List Contour), 0 < c.perimeter ∧ 0 < c.area ∧
          r.2.1 = round4 c.perimeter ∧ r.2.2.1 = round4 c.area ∧
          r.2.2.2 = round4 (4 * np_pi * c.area / c.perimeter ^ 2) :=
  c2_csv_payload [⟨4, 8⟩] 0 (by
    norm_num [filterData, extractParticles, extractFrom, mkParticle, round4, roundHalfEven])

/-- One clamped edge move preserves the crop-rectangle invariant. -/
lemma cropInv_update (img_w img_h : ℤ) (st : CropState) (e : Edge) (img_x img_y : ℤ)
    (h : CropInv img_w img_h st) :
    CropInv img_w img_h (update_crop_coords st e img_w img_h img_x img_y) := by
  obtain ⟨hl, hlr, hr, ht, htb, hb⟩ := h
  rw [min_crop_size] at *
  cases e <;>
    simp only [update_crop_coords, CropInv, min_crop_size] <;>
    refine ⟨?_, ?_, ?_, ?_, ?_, ?_⟩ <;>
    omega

/-- Any sequence of pointer-move events preserves the crop-rectangle
invariant. -/
lemma cropInv_applyDrags (img_w img_h : ℤ) (st : CropState) (evs : List DragEvent)
    (h : CropInv img_w img_h st) :
    CropInv img_w img_h (applyDrags img_w img_h st evs) := by
  induction evs generalizing st with
  | nil => exact h
  | cons e evs ih =>
      exact ih _ (cropInv_update img_w img_h st e.drag e.img_x e.img_y h)

/-- C6: on a well-formed rectangle, every pointer-move event keeps the
rectangle well formed (in particular right minus left and bottom minus top
stay at least min_crop_size and the rectangle stays inside the preview);
each drag moves only its own edge, clamped into the claimed interval; and
over any sequence of drag events the left edge never crosses
right minus min_crop_size. -/
theorem c6_drag_invariant (img_w img_h : ℤ) (st : CropState) (h : CropInv img_w img_h st) :
    (∀ e img_x img_y, CropInv img_w img_h (update_crop_coords st e img_w img_h img_x img_y)) ∧
      (∀ img_x img_y,
        ((update_crop_coords st .left img_w img_h img_x img_y).crop_top = st.crop_top ∧
          (update_crop_coords st .left img_w img_h img_x img_y).crop_right = st.crop_right ∧
          (update_crop_coords st .left img_w img_h img_x img_y).crop_bottom = st.crop_bottom ∧
          0 ≤ (update_crop_coords st .left img_w img_h img_x img_y).crop_left ∧
          (update_crop_coords st .left img_w img_h img_x img_y).crop_left ≤
            st.crop_right - min_crop_size) ∧
        ((update_crop_coords st .right img_w img_h img_x img_y).crop_left = st.crop_left ∧
          (update_crop_coords st .right img_w img_h img_x img_y).crop_top = st.crop_top ∧
          (update_crop_coords st .right img_w img_h img_x img_y).crop_bottom = st.crop_bottom ∧
          st.crop_left + min_crop_size ≤
            (update_crop_coords st .right img_w img_h img_x img_y).crop_right ∧
          (update_crop_coords st .right img_w img_h img_x img_y).crop_right ≤ img_w) ∧
        ((update_crop_coords st .top img_w img_h img_x img_y).crop_left = st.crop_left ∧
          (update_crop_coords st .top img_w img_h img_x img_y).crop_right = st.crop_right ∧
          (update_crop_coords st .top img_w img_h img_x img_y).crop_bottom = st.crop_bottom ∧
          0 ≤ (update_crop_coords st .top img_w img_h img_x img_y).crop_top ∧
          (update_crop_coords st .top img_w img_h img_x img_y).crop_top ≤
            st.crop_bottom - min_crop_size) ∧
        ((update_crop_coords st .bottom img_w img_h img_x img_y).crop_left = st.crop_left ∧
          (update_crop_coords st .bottom img_w img_h img_x img_y).crop_top = st.crop_top ∧
          (update_crop_coords st .bottom img_w img_h img_x img_y).crop_right = st.crop_right ∧
          st.crop_top + min_crop_size ≤
            (update_crop_coords st .bottom img_w img_h img_x img_y).crop_bottom ∧
          (update_crop_coords st .bottom img_w img_h img_x img_y).crop_bottom ≤ img_h)) ∧
      (∀ evs : List DragEvent,
        CropInv img_w img_h (applyDrags img_w img_h st evs) ∧
          (applyDrags img_w img_h st evs).crop_left + min_crop_size ≤
            (applyDrags img_w img_h st evs).crop_right) := by
  obtain ⟨hl, hlr, hr, ht, htb, hb⟩ := h
  refine ⟨fun e img_x img_y => cropInv_update img_w img_h st e img_x img_y
      ⟨hl, hlr, hr, ht, htb, hb⟩, ?_, ?_⟩
  · intro img_x img_y
    rw [min_crop_size] at *
    simp only [update_crop_coords, min_crop_size]
    refine ⟨⟨?_, ?_, ?_, ?_, ?_⟩, ⟨?_, ?_, ?_, ?_, ?_⟩,
      ⟨?_, ?_, ?_, ?_, ?_⟩, ⟨?_, ?_, ?_, ?_, ?_⟩⟩ <;>
      first
        | trivial
        | omega
  · intro evs
    have hinv := cropInv_applyDrags img_w img_h st evs ⟨hl, hlr, hr, ht, htb, hb⟩
    exact ⟨hinv, hinv.2.1⟩

/-- C6 (witness): a concrete well-formed rectangle inside a 100 by 100
preview. -/
theorem c6_drag_invariant_witness :
    CropInv 100 100 ⟨20, 20, 80, 80⟩ ∧
      ((∀ e img_x img_y,
          CropInv 100 100 (update_crop_coords ⟨20, 20, 80, 80⟩ e 100 100 img_x img_y)) ∧
        (∀ img_x img_y,
          ((update_crop_coords ⟨20, 20, 80, 80⟩ .left 100 100 img_x img_y).crop_top =
              (⟨20, 20, 80, 80⟩ : CropState).crop_top ∧
            (update_crop_coords ⟨20, 20, 80, 80⟩ .left 100 100 img_x img_y).crop_right =
              (⟨20, 20, 80, 80⟩ : CropState).crop_right ∧
            (update_crop_coords ⟨20, 20, 80, 80⟩ .left 100 100 img_x img_y).crop_bottom =
              (⟨20, 20, 80, 80⟩ : CropState).crop_bottom ∧
            0 ≤ (update_crop_coords ⟨20, 20, 80, 80⟩ .left 100 100 img_x img_y).crop_left ∧
            (update_crop_coords ⟨20, 20, 80, 80⟩ .left 100 100 img_x img_y).crop_left ≤
              (⟨20, 20, 80, 80⟩ : CropState).crop_right - min_crop_size) ∧
          ((update_crop_coords ⟨20, 20, 80, 80⟩ .right 100 100 img_x img_y).crop_left =
              (⟨20, 20, 80, 80⟩ : CropState).crop_left ∧
            (update_crop_coords ⟨20, 20, 80, 80⟩ .right 100 100 img_x img_y).crop_top =
              (⟨20, 20, 80, 80⟩ : CropState).crop_top ∧
            (update_crop_coords ⟨20, 20, 80, 80⟩ .right 100 100 img_x img_y).crop_bottom =
              (⟨20, 20, 80, 80⟩ : CropState).crop_bottom ∧
            (⟨20, 20, 80, 80⟩ : CropState).crop_left + min_crop_size ≤
              (update_crop_coords ⟨20, 20, 80, 80⟩ .right 100 100 img_x img_y).crop_right ∧
            (update_crop_coords ⟨20, 20, 80, 80⟩ .right 100 100 img_x img_y).crop_right ≤ 100) ∧
          ((update_crop_coords ⟨20, 20, 80, 80⟩ .top 100 100 img_x img_y).crop_left =
              (⟨20, 20, 80, 80⟩ : CropState).crop_left ∧
            (update_crop_coords ⟨20, 20, 80, 80⟩ .top 100 100 img_x img_y).crop_right =
              (⟨20, 20, 80, 80⟩ : CropState).crop_right ∧
            (update_crop_coords ⟨20, 20, 80, 80⟩ .top 100 100 img_x img_y).crop_bottom =
              (⟨20, 20, 80, 80⟩ : CropState).crop_bottom ∧
            0 ≤ (update_crop_coords ⟨20, 20, 80, 80⟩ .top 100 100 img_x img_y).crop_top ∧
            (update_crop_coords ⟨20, 20, 80, 80⟩ .top 100 100 img_x img_y).crop_top ≤
              (⟨20, 20, 80, 80⟩ : CropState).crop_bottom - min_crop_size) ∧
          ((update_crop_coords ⟨20, 20, 80, 80⟩ .bottom 100 100 img_x img_y).crop_left =
              (⟨20, 20, 80, 80⟩ : CropState).crop_left ∧
            (update_crop_coords ⟨20, 20, 80, 80⟩ .bottom 100 100 img_x img_y).crop_top =
              (⟨20, 20, 80, 80⟩ : CropState).crop_top ∧
            (update_crop_coords ⟨20, 20, 80, 80⟩ .bottom 100 100 img_x img_y).crop_right =
              (⟨20, 20, 80, 80⟩ : CropState).crop_right ∧
            (⟨20, 20, 80, 80⟩ : CropState).crop_top + min_crop_size ≤
              (update_crop_coords ⟨20, 20, 80, 80⟩ .bottom 100 100 img_x img_y).crop_bottom ∧
            (update_crop_coords ⟨20, 20, 80, 80⟩ .bottom 100 100 img_x img_y).crop_bottom ≤
              100)) ∧
        (∀ evs : List DragEvent,
          CropInv 100 100 (applyDrags 100 100 ⟨20, 20, 80, 80⟩ evs) ∧
            (applyDrags 100 100 ⟨20, 20, 80, 80⟩ evs).crop_left + min_crop_size ≤
              (applyDrags 100 100 ⟨20, 20, 80, 80⟩ evs).crop_right)) :=
  ⟨by decide, c6_drag_invariant 100 100 ⟨20, 20, 80, 80⟩ (by decide)⟩

/-- C7: the pointer-press enters a drag exactly when some edge is within
drag_threshold of the pointer with the perpendicular coordinate inside the
opposite pair's span, and the edge chosen is the first eligible one in the
fixed priority order left, right, top, bottom. -/
theorem c7_judge_priority (st : CropState) (img_x img_y : ℤ) :
    (judge_drag_type st img_x img_y ≠ none ↔ ∃ e, edgeOk st e img_x img_y) ∧
      ∀ e, judge_drag_type st img_x img_y = some e ↔
        (edgeOk st e img_x img_y ∧
          ∀ d, edgePriority d < edgePriority e → ¬ edgeOk st d img_x img_y) := by
  have hok : ∀ e, edgeOk st e img_x img_y ↔
      (match e with
        | Edge.left =>
            |img_x - st.crop_left| ≤ drag_threshold ∧ st.crop_top ≤ img_y ∧
              img_y ≤ st.crop_bottom
        | Edge.right =>
            |img_x - st.crop_right| ≤ drag_threshold ∧ st.crop_top ≤ img_y ∧
              img_y ≤ st.crop_bottom
        | Edge.top =>
            |img_y - st.crop_top| ≤ drag_threshold ∧ st.crop_left ≤ img_x ∧
              img_x ≤ st.crop_right
        | Edge.bottom =>
            |img_y - st.crop_bottom| ≤ drag_threshold ∧ st.crop_left ≤ img_x ∧
              img_x ≤ st.crop_right) :=
    fun e => by cases e <;> rfl
  rw [judge_drag_type]
  split_ifs with h1 h2 h3 h4
  · refine ⟨by simp; exact ⟨Edge.left, (hok Edge.left).mpr h1⟩, fun e => ?_⟩
    cases e
    · simpa using ⟨(hok Edge.left).mpr h1, fun d hd => by
        simp only [edgePriority] at hd
        omega⟩
    · simp only [Option.some.injEq]
      constructor
      · intro he
        cases he
      · rintro ⟨-, hmin⟩
        exact absurd ((hok Edge.left).mpr h1) (hmin Edge.left (by simp only [edgePriority]; omega))
    · simp only [Option.some.injEq]
      constructor
      · intro he
        cases he
      · rintro ⟨-, hmin⟩
        exact absurd ((hok Edge.left).mpr h1) (hmin Edge.left (by simp only [edgePriority]; omega))
    · simp only [Option.some.injEq]
      constructor
      · intro he
        cases he
      · rintro ⟨-, hmin⟩
        exact absurd ((hok Edge.left).mpr h1) (hmin Edge.left (by simp only [edgePriority]; omega))
  · refine ⟨by simp; exact ⟨Edge.right, (hok Edge.right).mpr h2⟩, fun e => ?_⟩
    cases e
    · simp only [Option.some.injEq]
      constructor
      · intro he
        cases he
      · rintro ⟨hOk, -⟩
        exact absurd ((hok Edge.left).mp hOk) h1
    · simpa using ⟨(hok Edge.right).mpr h2, fun d hd => by
        cases d <;> simp only [edgePriority] at hd <;>
          first
            | exact fun hc => h1 ((hok Edge.left).mp hc)
            | omega⟩
    · simp only [Option.some.injEq]
      constructor
      · intro he
        cases he
      · rintro ⟨-, hmin⟩
        exact absurd ((hok Edge.right).mpr h2) (hmin Edge.right (by simp only [edgePriority]; omega))
    · simp only [Option.some.injEq]
      constructor
      · intro he
        cases he
      · rintro ⟨-, hmin⟩
        exact absurd ((hok Edge.right).mpr h2) (hmin Edge.right (by simp only [edgePriority]; omega))
  · refine ⟨by simp; exact ⟨Edge.top, (hok Edge.top).mpr h3⟩, fun e => ?_⟩
    cases e
    · simp only [Option.some.injEq]
      constructor
      · intro he
        cases he
      · rintro ⟨hOk, -⟩
        exact absurd ((hok Edge.left).mp hOk) h1
    · simp only [Option.some.injEq]
      constructor
      · intro he
        cases he
      · rintro ⟨hOk, -⟩
        exact absurd ((hok Edge.right).mp hOk) h2
    · simpa using ⟨(hok Edge.top).mpr h3, fun d hd => by
        cases d <;> simp only [edgePriority] at hd <;>
          first
            | exact fun hc => h1 ((hok Edge.left).mp hc)
            | exact fun hc => h2 ((hok Edge.right).mp hc)
            | omega⟩
    · simp only [Option.some.injEq]
      constructor
      · intro he
        cases he
      · rintro ⟨-, hmin⟩
        exact absurd ((hok Edge.top).mpr h3) (hmin Edge.top (by simp only [edgePriority]; omega))
  · refine ⟨by simp; exact ⟨Edge.bottom, (hok Edge.bottom).mpr h4⟩, fun e => ?_⟩
    cases e
    · simp only [Option.some.injEq]
      constructor
      · intro he
        cases he
      · rintro ⟨hOk, -⟩
        exact absurd ((hok Edge.left).mp hOk) h1
    · simp only [Option.some.injEq]
      constructor
      · intro he
        cases he
      · rintro ⟨hOk, -⟩
        exact absurd ((hok Edge.right).mp hOk) h2
    · simp only [Option.some.injEq]
      constructor
      · intro he
        cases he
      · rintro ⟨hOk, -⟩
        exact absurd ((hok Edge.top).mp hOk) h3
    · simpa using ⟨(hok Edge.bottom).mpr h4, fun d hd => by
        cases d <;> simp only [edgePriority] at hd <;>
          first
            | exact fun hc => h1 ((hok Edge.left).mp hc)
            | exact fun hc => h2 ((hok Edge.right).mp hc)
            | exact fun hc => h3 ((hok Edge.top).mp hc)
            | omega⟩
  · constructor
    · simp only [ne_eq, not_true_eq_false, false_iff]
      rintro ⟨e, he⟩
      cases e
      · exact h1 ((hok Edge.left).mp he)
      · exact h2 ((hok Edge.right).mp he)
      · exact h3 ((hok Edge.top).mp he)
      · exact h4 ((hok Edge.bottom).mp he)
    · intro e
      constructor
      · intro he
        cases he
      · rintro ⟨hOk, -⟩
        cases e
        · exact absurd ((hok Edge.left).mp hOk) h1
        · exact absurd ((hok Edge.right).mp hOk) h2
        · exact absurd ((hok Edge.top).mp hOk) h3
        · exact absurd ((hok Edge.bottom).mp hOk) h4

/-- Truncation of a non-negative rational is non-negative. -/
lemma pyInt_nonneg {q : ℚ} (h : 0 ≤ q) : 0 ≤ pyInt q := by
  rw [pyInt, if_neg (not_lt.mpr h)]
  exact Int.le_floor.mpr (by exact_mod_cast h)

/-- Truncation of a non-negative rational below an integer bound stays
below the bound. -/
lemma pyInt_le {q : ℚ} {b : ℤ} (h0 : 0 ≤ q) (h : q ≤ (b : ℚ)) : pyInt q ≤ b := by
  rw [pyInt, if_neg (not_lt.mpr h0)]
  have hq : ((⌊q⌋ : ℤ) : ℚ) ≤ (b : ℚ) := le_trans (Int.floor_le q) h
  exact_mod_cast hq

/-- C8: committing the crop maps each preview coordinate to original
coordinates by multiplying with scale_w = orig_w / prev_w (respectively
scale_h = orig_h / prev_h) and truncating toward zero; the commit yields
no crop exactly when the mapped rectangle leaves [0, orig_w] by
[0, orig_h], any successful commit crops exactly the mapped rectangle, and
for a well-formed preview rectangle with positive preview extents and
non-negative original extents the commit always succeeds. -/
theorem c8_commit_mapping (st : CropState) (orig_w orig_h prev_w prev_h : ℤ) :
    (on_confirm_crop st orig_w orig_h prev_w prev_h = none ↔
      ¬ rectInBounds orig_w orig_h (mappedRect st orig_w orig_h prev_w prev_h)) ∧
      (∀ r, on_confirm_crop st orig_w orig_h prev_w prev_h = some r →
        r = mappedRect st orig_w orig_h prev_w prev_h ∧ rectInBounds orig_w orig_h r) ∧
      (0 < prev_w → 0 < prev_h → 0 ≤ orig_w → 0 ≤ orig_h → CropInv prev_w prev_h st →
        on_confirm_crop st orig_w orig_h prev_w prev_h =
          some (mappedRect st orig_w orig_h prev_w prev_h)) := by
  have hdef : on_confirm_crop st orig_w orig_h prev_w prev_h =
      if (mappedRect st orig_w orig_h prev_w prev_h).1 < 0 ∨
          (mappedRect st orig_w orig_h prev_w prev_h).2.1 < 0 ∨
          orig_w < (mappedRect st orig_w orig_h prev_w prev_h).2.2.1 ∨
          orig_h < (mappedRect st orig_w orig_h prev_w prev_h).2.2.2 then none
      else some (mappedRect st orig_w orig_h prev_w prev_h) := rfl
  refine ⟨?_, ?_, ?_⟩
  · rw [hdef]
    split_ifs with hc
    · refine iff_of_true rfl ?_
      rw [rectInBounds]
      omega
    · refine iff_of_false (by simp) ?_
      rw [rectInBounds]
      omega
  · intro r hr
    rw [hdef] at hr
    split_ifs at hr with hc
    obtain rfl : mappedRect st orig_w orig_h prev_w prev_h = r := by simpa using hr
    refine ⟨rfl, ?_⟩
    rw [rectInBounds]
    omega
  · intro hpw hph how hoh hinv
    obtain ⟨hl, hlr, hr, ht, htb, hb⟩ := hinv
    rw [min_crop_size] at hlr htb
    have hpw0 : ((prev_w : ℚ)) ≠ 0 := by
      exact_mod_cast hpw.ne'
    have hph0 : ((prev_h : ℚ)) ≠ 0 := by
      exact_mod_cast hph.ne'
    have hswnn : (0 : ℚ) ≤ (orig_w : ℚ) / (prev_w : ℚ) :=
      div_nonneg (by exact_mod_cast how) (by exact_mod_cast hpw.le)
    have hshnn : (0 : ℚ) ≤ (orig_h : ℚ) / (prev_h : ℚ) :=
      div_nonneg (by exact_mod_cast hoh) (by exact_mod_cast hph.le)
    have hm1 : (mappedRect st orig_w orig_h prev_w prev_h).1 =
        pyInt ((st.crop_left : ℚ) * ((orig_w : ℚ) / (prev_w : ℚ))) := rfl
    have hm2 : (mappedRect st orig_w orig_h prev_w prev_h).2.1 =
        pyInt ((st.crop_top : ℚ) * ((orig_h : ℚ) / (prev_h : ℚ))) := rfl
    have hm3 : (mappedRect st orig_w orig_h prev_w prev_h).2.2.1 =
        pyInt ((st.crop_right : ℚ) * ((orig_w : ℚ) / (prev_w : ℚ))) := rfl
    have hm4 : (mappedRect st orig_w orig_h prev_w prev_h).2.2.2 =
        pyInt ((st.crop_bottom : ℚ) * ((orig_h : ℚ) / (prev_h : ℚ))) := rfl
    have h1 : 0 ≤ pyInt ((st.crop_left : ℚ) * ((orig_w : ℚ) / (prev_w : ℚ))) :=
      pyInt_nonneg (mul_nonneg (by exact_mod_cast hl) hswnn)
    have h2 : 0 ≤ pyInt ((st.crop_top : ℚ) * ((orig_h : ℚ) / (prev_h : ℚ))) :=
      pyInt_nonneg (mul_nonneg (by exact_mod_cast ht) hshnn)
    have hrq : (0 : ℚ) ≤ (st.crop_right : ℚ) := by
      exact_mod_cast (by omega : (0 : ℤ) ≤ st.crop_right)
    have hbq : (0 : ℚ) ≤ (st.crop_bottom : ℚ) := by
      exact_mod_cast (by omega : (0 : ℤ) ≤ st.crop_bottom)
    have h3 : pyInt ((st.crop_right : ℚ) * ((orig_w : ℚ) / (prev_w : ℚ))) ≤ orig_w := by
      refine pyInt_le (mul_nonneg hrq hswnn) ?_
      calc (st.crop_right : ℚ) * ((orig_w : ℚ) / (prev_w : ℚ))
          ≤ (prev_w : ℚ) * ((orig_w : ℚ) / (prev_w : ℚ)) :=
            mul_le_mul_of_nonneg_right (by exact_mod_cast hr) hswnn
        _ = (orig_w : ℚ) := by
            rw [mul_comm]
            exact div_mul_cancel₀ _ hpw0
    have h4 : pyInt ((st.crop_bottom : ℚ) * ((orig_h : ℚ) / (prev_h : ℚ))) ≤ orig_h := by
      refine pyInt_le (mul_nonneg hbq hshnn) ?_
      calc (st.crop_bottom : ℚ) * ((orig_h : ℚ) / (prev_h : ℚ))
          ≤ (prev_h : ℚ) * ((orig_h : ℚ) / (prev_h : ℚ)) :=
            mul_le_mul_of_nonneg_right (by exact_mod_cast hb) hshnn
        _ = (orig_h : ℚ) := by
            rw [mul_comm]
            exact div_mul_cancel₀ _ hph0
    rw [hdef, if_neg (by rw [hm1, hm2, hm3, hm4]; push_neg; exact ⟨h1, h2, h3, h4⟩)]

/-- C8 (witness): a well-formed rectangle in a 100 by 100 preview of a
200 by 100 original commits successfully to the mapped rectangle. -/
theorem c8_commit_mapping_witness :
    on_confirm_crop ⟨20, 20, 80, 80⟩ 200 100 100 100 =
      some (mappedRect ⟨20, 20, 80, 80⟩ 200 100 100 100) :=
  (c8_commit_mapping ⟨20, 20, 80, 80⟩ 200 100 100 100).2.2 (by omega) (by omega)
    (by omega) (by omega) (by decide)

end Roundness
